import Mathlib

/-!
Verification development for the savantra repository.

Shallow embedding of the syllabus-to-topics pipeline:
* the text cleaning transform of src/services/files/fileReader.ts
  (cleanExtractedText) and of the topic extraction service (cleanSyllabusText);
* the topic extraction client (extractTopics, parseOpenAIResponse,
  getErrorMessage) of the TopicExtractionService;
* the persistence gateway (TopicService.saveTopicsForCourse,
  getTopicsForCourse, createTopic, deleteTopic and the two converters) over an
  explicit model of the backend state (courses and topics tables, the
  authenticated user, a clock, and a per-call plan of backend write failures);
* the review screen in-memory removeTopic (filter plus reindex).

Strings are modelled as Lean String / List Char. JS regular expression
replacements are modelled by structurally recursive functions with the same
global leftmost semantics. JS truthiness is modelled explicitly where the code
relies on it. Wall-clock metadata (processingTime) and the floating point
confidence score are not modelled; no claim depends on them. The JS whitespace
class is modelled by its common members (space, tab, LF, CR, VT, FF, NBSP,
BOM); no claim involves the exotic unicode space separators.
-/

/-! ## Text cleaning pipeline (fileReader.ts cleanExtractedText, app.config.js cleanSyllabusText) -/

/-- Model of the JS character class [ \t] used by the whitespace collapsing step. -/
def isHWS (c : Char) : Bool := c == ' ' || c == '\t'

/-- Model of the JS whitespace class \s (common members). -/
def isJsWS (c : Char) : Bool :=
  c == ' ' || c == '\t' || c == '\n' || c == '\r' || c == '\x0b' || c == '\x0c' ||
  c == '\u00A0' || c == '\uFEFF'

/-- Model of .replace(/\r\n/g, LF): each CRLF pair becomes one LF, scanning left to right. -/
def replCRLF : List Char → List Char
  | [] => []
  | [c] => [c]
  | a :: b :: rest =>
    if a = '\r' ∧ b = '\n' then '\n' :: replCRLF rest
    else a :: replCRLF (b :: rest)

/-- Model of .replace(/\r/g, LF). -/
def replCR (l : List Char) : List Char := l.map (fun c => if c = '\r' then '\n' else c)

/-- Model of .replace(/\n{3,}/g, LF LF): every maximal run of three or more
newlines is reduced to two, i.e. at most two consecutive newlines are kept.
The first argument counts the newlines just emitted, capped at 2. -/
def nlRun : Nat → List Char → List Char
  | _, [] => []
  | seen, c :: rest =>
    if c = '\n' then
      if 2 ≤ seen then nlRun seen rest else '\n' :: nlRun (seen + 1) rest
    else c :: nlRun 0 rest

/-- Model of .replace(/[ \t]+/g, SPACE): every maximal run of spaces and tabs
becomes a single space. The flag records being inside a run whose space was
already emitted. -/
def wsRun : Bool → List Char → List Char
  | _, [] => []
  | inRun, c :: rest =>
    if isHWS c then
      if inRun then wsRun true rest else ' ' :: wsRun true rest
    else c :: wsRun false rest

def dropWS (l : List Char) : List Char := l.dropWhile isJsWS

/-- Model of .replace(/^\s+|\s+$/g, EMPTY) and of String.trim: remove the
leading and the trailing whitespace run. -/
def trimJS (l : List Char) : List Char := ((dropWS l).reverse.dropWhile isJsWS).reverse

/-- Model of the character class kept by .replace(/[^\x20-\x7E\n]/g, EMPTY). -/
def printableOrNL (c : Char) : Bool := (0x20 ≤ c.toNat && c.toNat ≤ 0x7e) || c == '\n'

/-- Embedding of FileReaderService.cleanExtractedText (fileReader.ts lines 167-178):
normalize line endings, collapse 3+ newline runs to 2, collapse horizontal
whitespace runs, trim, strip characters outside printable ASCII and newline,
truncate to 10000 characters. The leading empty-string guard mirrors
`if (!text) return ''`. -/
def cleanExtractedText (l : List Char) : List Char :=
  if l.isEmpty then []
  else ((trimJS (wsRun false (nlRun 0 (replCR (replCRLF l))))).filter printableOrNL).take 10000

/-- Embedding of TopicExtractionService.cleanSyllabusText (app.config.js lines
179-187): same normalization without the non-printable strip, truncated to 8000. -/
def cleanSyllabusText (l : List Char) : List Char :=
  (trimJS (wsRun false (nlRun 0 (replCR (replCRLF l))))).take 8000

/-- Model of the JS String.trim() call on a Lean String. -/
def jsStrTrim (s : String) : String := String.mk (trimJS s.data)

/-! ## Substring matching (JS String.includes) -/

/-- pat is a leading segment of the second list. -/
def leadsWith : List Char → List Char → Bool
  | [], _ => true
  | _ :: _, [] => false
  | p :: ps, c :: cs => p == c && leadsWith ps cs

/-- pat occurs contiguously inside the list (model of JS String.includes). -/
def hasSub (pat : List Char) : List Char → Bool
  | [] => leadsWith pat []
  | c :: rest => leadsWith pat (c :: rest) || hasSub pat rest

/-- String-level wrapper: s contains pat as a substring. -/
def strHas (s pat : String) : Bool := hasSub pat.data s.data

/-! ## Error classification (app.config.js getErrorMessage, lines 246-266) -/

def keyErrorMsg : String := "OpenAI API key is invalid or missing. Please check your configuration."
def billingErrorMsg : String := "OpenAI API quota exceeded. Please check your billing settings."
def rateLimitErrorMsg : String := "Too many requests. Please wait a moment and try again."
def networkErrorMsg : String := "Network error. Please check your internet connection and try again."

/-- Embedding of TopicExtractionService.getErrorMessage: substring-based
classification of the underlying error message, checked in source order. -/
def getErrorMessage (message : String) : String :=
  if strHas message "API key" then keyErrorMsg
  else if strHas message "quota" || strHas message "billing" then billingErrorMsg
  else if strHas message "rate limit" then rateLimitErrorMsg
  else if strHas message "network" || strHas message "fetch" then networkErrorMsg
  else "Topic extraction failed: " ++ message

/-! ## JSON values and the provider response parser (app.config.js parseOpenAIResponse) -/

/-- Model of a parsed JSON value. Numbers are modelled as integers; no claim
depends on fractional numeric values. -/
inductive Json where
  | null : Json
  | bool : Bool → Json
  | num  : Int → Json
  | str  : String → Json
  | arr  : List Json → Json
  | obj  : List (String × Json) → Json

/-- JS truthiness of a JSON value ([] and object literals are truthy). -/
def truthy : Json → Bool
  | .null => false
  | .bool b => b
  | .num n => n != 0
  | .str s => s != ""
  | .arr _ => true
  | .obj _ => true

/-- JS property lookup on an object built by JSON.parse: with duplicate keys the
last occurrence wins. -/
def jsGet : List (String × Json) → String → Option Json
  | [], _ => none
  | (k, v) :: rest, key =>
    match jsGet rest key with
    | some w => some w
    | none => if k = key then some v else none

/-- The string-typed entries of a JSON array, in order
(model of keywords.filter(k, typeof k is string)). -/
def stringsOf (l : List Json) : List String :=
  l.filterMap fun j => match j with | .str s => some s | _ => none

/-- The synthetic identifier assigned to the entry at 0-based index i. -/
def topicId (i : Nat) : String := "topic-" ++ Nat.repr (i + 1)

/-- Transient topic record produced by extraction (topicExtraction.ts ExtractedTopic). -/
structure ExtractedTopic where
  id : String
  title : String
  order : Nat
  keywords : Option (List String)
deriving Repr, DecidableEq

/-- Embedding of the per-entry body of parseOpenAIResponse.map: requires a
truthy title (a throw inside the callback aborts the whole map, modelled as
error); a truthy non-string title makes title.trim() throw; keywords keeps the
string-typed entries when the field is an array and is absent otherwise. -/
def convTopic (index : Nat) (topic : Json) : Except String ExtractedTopic :=
  match topic with
  | .obj fields =>
    match jsGet fields "title" with
    | some (.str s) =>
      if s = "" then .error ("Topic " ++ Nat.repr (index + 1) ++ " missing title")
      else .ok { id := topicId index, title := jsStrTrim s, order := index + 1,
                 keywords := match jsGet fields "keywords" with
                   | some (.arr ks) => some (stringsOf ks)
                   | _ => none }
    | some v =>
      if truthy v then .error "TypeError: title.trim is not a function"
      else .error ("Topic " ++ Nat.repr (index + 1) ++ " missing title")
    | none => .error ("Topic " ++ Nat.repr (index + 1) ++ " missing title")
  | .null => .error "TypeError: cannot read title of null"
  | _ => .error ("Topic " ++ Nat.repr (index + 1) ++ " missing title")

/-- Sequential conversion of the topics array with 0-based indices. -/
def convTopics (index : Nat) : List Json → Except String (List ExtractedTopic)
  | [] => .ok []
  | t :: rest =>
    match convTopic index t with
    | .error e => .error e
    | .ok et =>
      match convTopics (index + 1) rest with
      | .error e => .error e
      | .ok ets => .ok (et :: ets)

/-- Embedding of parseOpenAIResponse lines 197-220 on the already parsed
message content: requires a truthy topics array, converts every entry, and
rejects an empty result. -/
def parseContentTopics (parsed : Json) : Except String (List ExtractedTopic) :=
  match parsed with
  | .obj fields =>
    match jsGet fields "topics" with
    | some t =>
      if truthy t then
        match t with
        | .arr entries =>
          match convTopics 0 entries with
          | .error e => .error e
          | .ok ts => if ts.length = 0 then .error "No valid topics extracted" else .ok ts
        | _ => .error "Invalid response format: topics array not found"
      else .error "Invalid response format: topics array not found"
    | none => .error "Invalid response format: topics array not found"
  | .null => .error "TypeError: cannot read topics of null"
  | _ => .error "Invalid response format: topics array not found"

/-- Caller-facing result of extractTopics. The metadata object (wall-clock
processing time and floating point confidence score) is not modelled. -/
structure TopicExtractionResponse where
  success : Bool
  topics : List ExtractedTopic
  error : Option String
deriving Repr, DecidableEq

/-- Outcome of the single HTTP call to the chat-completion endpoint.
ok carries the first choice message content after JSON.parse when it is
present and parseable; a missing, empty or unparseable content is the
ok none case (all of them throw inside the same try block). -/
inductive FetchResult where
  | httpError (status : Nat) (providerMsg : Option String)
  | networkFail (msg : String)
  | ok (content : Option Json)

/-- Result of the validation phase of extractTopics that runs before the HTTP
request: abort returns the response without any network call, send proceeds to
the request carrying the cleaned syllabus text. -/
inductive PreflightResult where
  | abort (resp : TopicExtractionResponse)
  | send (cleanedPayload : String)

/-- Embedding of extractTopics lines 64-86: the API key guard, the short-input
guard, and the text cleaning, all before fetch is called. -/
def extractPreflight (apiKey syllabusText : String) : PreflightResult :=
  if apiKey = "" then
    .abort { success := false, topics := [], error := some "OpenAI API key not configured" }
  else if syllabusText = "" ∨ (jsStrTrim syllabusText).length < 50 then
    .abort { success := false, topics := [],
             error := some "Syllabus text is too short. Please provide more detailed content." }
  else
    .send (String.mk (cleanSyllabusText syllabusText.data))

def parseErrorWrap (e : String) : String := "Failed to parse AI response: " ++ e

/-- Embedding of extractTopics with the HTTP outcome supplied as an explicit
argument: guards, response handling, parsing, and the catch-all error
classification. -/
def extractTopicsWith (apiKey syllabusText : String) (fetched : FetchResult) :
    TopicExtractionResponse :=
  match extractPreflight apiKey syllabusText with
  | .abort r => r
  | .send _ =>
    match fetched with
    | .httpError status pmsg =>
      let msg := "OpenAI API error: " ++ Nat.repr status ++ " - " ++ pmsg.getD "Unknown error"
      { success := false, topics := [], error := some (getErrorMessage msg) }
    | .networkFail m =>
      { success := false, topics := [], error := some (getErrorMessage m) }
    | .ok none =>
      { success := false, topics := [],
        error := some (getErrorMessage (parseErrorWrap "No content in OpenAI response")) }
    | .ok (some parsed) =>
      match parseContentTopics parsed with
      | .error e =>
        { success := false, topics := [], error := some (getErrorMessage (parseErrorWrap e)) }
      | .ok ts => { success := true, topics := ts, error := none }

/-! ## Backend state model and TopicService (src/unnamed/part_001) -/

/-- Row of the courses table (the columns the TopicService reads or writes). -/
structure CourseRow where
  id : String
  userId : String
  topicsExtracted : Bool
  updatedAt : Nat
deriving Repr, DecidableEq

/-- Row of the topics table. -/
structure TopicRow where
  id : String
  courseId : String
  title : String
  content : String
  orderIndex : Nat
  createdAt : Nat
deriving Repr, DecidableEq

/-- Backend state: the two tables, a key generator counter for inserted rows,
the authenticated user (getUser result), and the clock used for new Date(). -/
structure DB where
  courses : List CourseRow
  topics : List TopicRow
  nextTopicId : Nat
  currentUser : Option String
  now : Nat
deriving Repr, DecidableEq

structure ServiceError where
  message : String
deriving Repr, DecidableEq

/-- Tagged result object returned by every TopicService operation. -/
structure ServiceResponse (α : Type) where
  data : Option α
  error : Option ServiceError
  success : Bool
deriving Repr, DecidableEq

/-- Which backend writes fail during one saveTopicsForCourse call (reads are
assumed to succeed; the claims concern write failure interleavings). -/
structure BackendPlan where
  deleteTopicsFails : Bool
  insertTopicsFails : Bool
  updateCourseFails : Bool
deriving Repr, DecidableEq

def noFailures : BackendPlan := ⟨false, false, false⟩

def authFailResp {α : Type} : ServiceResponse α :=
  ⟨none, some ⟨"User not authenticated"⟩, false⟩

def accessFailResp {α : Type} : ServiceResponse α :=
  ⟨none, some ⟨"Course not found or access denied"⟩, false⟩

/-- Embedding of verifyCourseOwnership: the single() query succeeds exactly
when one course row matches both the course id and the user id. -/
def ownsCourse (db : DB) (courseId userId : String) : Bool :=
  (db.courses.filter (fun c => c.id == courseId && c.userId == userId)).length == 1

/-- The course update that flips topicsExtracted and refreshes updatedAt. -/
def markExtracted (db : DB) (courseId : String) : DB :=
  { db with courses := db.courses.map (fun c =>
      if c.id = courseId then { c with topicsExtracted := true, updatedAt := db.now } else c) }

/-- Model of keywords.join(COMMA SPACE). -/
def joinKeywords : List String → String
  | [] => ""
  | [k] => k
  | k :: rest => k ++ ", " ++ joinKeywords rest

/-- Model of `topic.keywords ? topic.keywords.join(COMMA SPACE) : EMPTY`. -/
def keywordContent : Option (List String) → String
  | some ks => joinKeywords ks
  | none => ""

/-- The rows built from the extracted topics before the bulk insert
(saveTopicsForCourse lines 174-180); row keys come from the backend generator.
orderIndex is `topic.order || index + 1`, so a zero order falls back to the
1-based array position. -/
def buildRows (startId now : Nat) (courseId : String) : Nat → List ExtractedTopic → List TopicRow
  | _, [] => []
  | index, t :: rest =>
    { id := "row-" ++ Nat.repr (startId + index),
      courseId := courseId,
      title := t.title,
      content := keywordContent t.keywords,
      orderIndex := if t.order = 0 then index + 1 else t.order,
      createdAt := now } :: buildRows startId now courseId (index + 1) rest

def deleteCourseTopics (db : DB) (courseId : String) : DB :=
  { db with topics := db.topics.filter (fun t => !(t.courseId == courseId)) }

def insertTopicRows (db : DB) (rows : List TopicRow) : DB :=
  { db with topics := db.topics ++ rows, nextTopicId := db.nextTopicId + rows.length }

/-- Embedding of TopicService.saveTopicsForCourse (part_001 lines 118-258):
auth guard, ownership guard, delete of the existing topics, the empty-list
shortcut (whose course update result is ignored), the bulk insert, and the
final course update whose failure does not fail the operation. -/
def saveTopicsForCourse (db : DB) (plan : BackendPlan) (courseId : String)
    (extractedTopics : List ExtractedTopic) : ServiceResponse (List TopicRow) × DB :=
  match db.currentUser with
  | none => (authFailResp, db)
  | some userId =>
    if !(ownsCourse db courseId userId) then (accessFailResp, db)
    else if plan.deleteTopicsFails then
      (⟨none, some ⟨"Failed to clear existing topics"⟩, false⟩, db)
    else
      let db1 := deleteCourseTopics db courseId
      let rows := buildRows db1.nextTopicId db1.now courseId 0 extractedTopics
      if extractedTopics.length = 0 then
        let db2 := if plan.updateCourseFails then db1 else markExtracted db1 courseId
        (⟨some [], none, true⟩, db2)
      else if plan.insertTopicsFails then
        (⟨none, some ⟨"Failed to save topics"⟩, false⟩, db1)
      else
        let db2 := insertTopicRows db1 rows
        let db3 := if plan.updateCourseFails then db2 else markExtracted db2 courseId
        (⟨some rows, none, true⟩, db3)

/-- Stable insertion used to model the backend ORDER BY orderIndex ascending
(tie order between equal keys is not specified by the backend). -/
def insertByOrder (t : TopicRow) : List TopicRow → List TopicRow
  | [] => [t]
  | h :: rest => if h.orderIndex ≤ t.orderIndex then h :: insertByOrder t rest else t :: h :: rest

def sortByOrder (l : List TopicRow) : List TopicRow := l.foldr insertByOrder []

/-- Embedding of TopicService.getTopicsForCourse (part_001 lines 261-315). -/
def getTopicsForCourse (db : DB) (courseId : String) : ServiceResponse (List TopicRow) :=
  match db.currentUser with
  | none => authFailResp
  | some userId =>
    if !(ownsCourse db courseId userId) then accessFailResp
    else ⟨some (sortByOrder (db.topics.filter (fun t => t.courseId == courseId))), none, true⟩

/-- Embedding of TopicService.createTopic (part_001 lines 318-379): the row is
inserted with exactly the caller-provided orderIndex. -/
def createTopic (db : DB) (courseId title content : String) (orderIndex : Nat) :
    ServiceResponse TopicRow × DB :=
  match db.currentUser with
  | none => (authFailResp, db)
  | some userId =>
    if !(ownsCourse db courseId userId) then (accessFailResp, db)
    else
      let row : TopicRow :=
        { id := "row-" ++ Nat.repr db.nextTopicId, courseId := courseId,
          title := title, content := content, orderIndex := orderIndex, createdAt := db.now }
      (⟨some row, none, true⟩,
       { db with topics := db.topics ++ [row], nextTopicId := db.nextTopicId + 1 })

/-- Embedding of TopicService.deleteTopic (part_001 lines 448-506): ownership
through the course join, then a plain delete of the one row. No reindexing of
the remaining topics is performed. -/
def deleteTopic (db : DB) (topicId : String) : ServiceResponse Bool × DB :=
  match db.currentUser with
  | none => (authFailResp, db)
  | some userId =>
    match db.topics.find? (fun t => t.id == topicId) with
    | none => (⟨none, some ⟨"Topic not found or access denied"⟩, false⟩, db)
    | some t =>
      match db.courses.find? (fun c => c.id == t.courseId) with
      | none => (⟨none, some ⟨"Topic not found or access denied"⟩, false⟩, db)
      | some c =>
        if !(c.userId == userId) then (⟨none, some ⟨"Topic not found or access denied"⟩, false⟩, db)
        else (⟨some true, none, true⟩,
              { db with topics := db.topics.filter (fun t2 => !(t2.id == topicId)) })

/-! ## The converters (part_001 lines 509-529) -/

/-- The fixed separator COMMA SPACE used by join and split. -/
def commaSpace : List Char := [',', ' ']

/-- Model of content.split(COMMA SPACE): leftmost scanning on the fixed
two-character separator. -/
def splitCS : List Char → List (List Char)
  | [] => [[]]
  | [c] => [[c]]
  | a :: b :: rest =>
    if a = ',' ∧ b = ' ' then [] :: splitCS rest
    else
      match splitCS (b :: rest) with
      | [] => [[a]]
      | p :: ps => (a :: p) :: ps

/-- Embedding of TopicService.topicToExtractedTopic: split the content back
into keywords, keeping only the parts with a truthy trim; a falsy (empty)
content gives the empty keyword list. -/
def topicToExtractedTopic (t : TopicRow) : ExtractedTopic :=
  { id := t.id, title := t.title, order := t.orderIndex,
    keywords := some (if t.content = "" then []
      else ((splitCS t.content.data).map String.mk).filter (fun k => !(jsStrTrim k == ""))) }

/-- Topic columns produced by extractedTopicToTopic (Omit id and createdAt). -/
structure TopicInsert where
  courseId : String
  title : String
  content : String
  orderIndex : Nat
deriving Repr, DecidableEq

/-- Embedding of TopicService.extractedTopicToTopic. -/
def extractedTopicToTopic (et : ExtractedTopic) (courseId : String) : TopicInsert :=
  { courseId := courseId, title := et.title, content := keywordContent et.keywords,
    orderIndex := et.order }

/-- Completion of a TopicInsert into a stored row with a backend key and timestamp. -/
def completeRow (id : String) (createdAt : Nat) (ti : TopicInsert) : TopicRow :=
  { id := id, courseId := ti.courseId, title := ti.title, content := ti.content,
    orderIndex := ti.orderIndex, createdAt := createdAt }

/-! ## Review screen in-memory operations (ReviewTopicsScreen.tsx) -/

/-- Model of filtered.map with index: the topic at 0-based position i gets
order i + 1. -/
def reindexFrom : Nat → List ExtractedTopic → List ExtractedTopic
  | _, [] => []
  | i, t :: rest => { t with order := i + 1 } :: reindexFrom (i + 1) rest

/-- Embedding of the confirmed branch of removeTopic (ReviewTopicsScreen.tsx
lines 88-96): drop the topic and reindex the remaining ones from 1. -/
def removeTopicLocal (topicId : String) (topics : List ExtractedTopic) : List ExtractedTopic :=
  reindexFrom 0 (topics.filter (fun t => !(t.id == topicId)))

def insertNat (n : Nat) : List Nat → List Nat
  | [] => [n]
  | h :: rest => if h ≤ n then h :: insertNat n rest else n :: h :: rest

def sortNats (l : List Nat) : List Nat := l.foldr insertNat []

/-- The order-index multiset is exactly 1..n: sorted it equals the range. -/
def denselyPacked (orders : List Nat) : Bool := sortNats orders == List.range' 1 orders.length

/-! ## Auxiliary definitions used by the verification -/

/-- An entry of the topics array that carries a non-empty string title. -/
def goodEntry (e : Json) : Prop :=
  ∃ fields s, e = Json.obj fields ∧ jsGet fields "title" = some (.str s) ∧ s ≠ ""

/-- Character-level counterpart of joinKeywords. -/
def joinChars : List (List Char) → List Char
  | [] => []
  | [k] => k
  | k :: rest => k ++ ',' :: ' ' :: joinChars rest

/-- Checker: the list contains no three consecutive newline characters. -/
def okNL : List Char → Bool
  | a :: b :: c :: rest => !(a == '\n' && b == '\n' && c == '\n') && okNL (b :: c :: rest)
  | _ => true

/-- Checker: the list contains no two adjacent horizontal whitespace characters. -/
def okWS : List Char → Bool
  | a :: b :: rest => !(isHWS a && isHWS b) && okWS (b :: rest)
  | _ => true

/-- The shared trunk of the cleaning pipeline up to and including the trim. -/
def pipeCore (l : List Char) : List Char :=
  trimJS (wsRun false (nlRun 0 (replCR (replCRLF l))))

/-- The preflight outcome is an abort (no HTTP request) whose response is a
failure with an empty topic list and an error message. -/
def preflightAborts : PreflightResult → Bool
  | .abort r => !r.success && r.topics.isEmpty && r.error.isSome
  | .send _ => false

/-- Characters allowed by the restricted idempotence statement: printable
ASCII or newline, carriage return, tab. -/
def asciiOK (c : Char) : Prop := printableOrNL c = true ∨ c = '\r' ∨ c = '\t'

instance (c : Char) : Decidable (asciiOK c) := by
  unfold asciiOK
  infer_instance

/-! ## Concrete fixtures used by counterexamples and witnesses -/

/-- A 6 character input containing one non-printable byte between two single
spaces. -/
def c4ex : List Char := ['a', ' ', '\x01', ' ', 'b']

/-- A 60 character syllabus text that passes the length guard. -/
def longText : String := String.mk (List.replicate 60 'a')

def c3db : DB :=
  { courses := [⟨"c", "u", true, 0⟩],
    topics := [⟨"t1", "c", "Old", "", 1, 0⟩],
    nextTopicId := 1, currentUser := some "u", now := 7 }

def c8db : DB :=
  { courses := [⟨"c", "u", true, 0⟩],
    topics := [⟨"t1", "c", "A", "", 1, 0⟩, ⟨"t2", "c", "B", "", 2, 0⟩, ⟨"t3", "c", "C", "", 3, 0⟩],
    nextTopicId := 3, currentUser := some "u", now := 0 }

def c2db : DB :=
  { courses := [⟨"c", "u", false, 0⟩], topics := [⟨"t0", "c", "Stale", "", 1, 0⟩],
    nextTopicId := 5, currentUser := some "u", now := 3 }

def c9et : ExtractedTopic := ⟨"e1", "T", 1, some [" "]⟩

/-! ## General helper lemmas -/

lemma convTopic_eval (index : Nat) (fields : List (String × Json)) (s : String)
    (ht : jsGet fields "title" = some (.str s)) (hs : s ≠ "") :
    convTopic index (.obj fields) = .ok
      { id := topicId index, title := jsStrTrim s, order := index + 1,
        keywords := match jsGet fields "keywords" with
          | some (Json.arr ks) => some (stringsOf ks)
          | _ => none } := by
  simp only [convTopic]
  rw [ht]
  simp [hs]

lemma reindexFrom_orders (l : List ExtractedTopic) : ∀ s,
    (reindexFrom s l).map (fun t => t.order) = List.range' (s + 1) l.length := by
  induction l with
  | nil => intro s; rfl
  | cons t rest ih =>
    intro s
    simp [reindexFrom, List.range'_succ, ih (s + 1)]

lemma reindexFrom_length (l : List ExtractedTopic) : ∀ s,
    (reindexFrom s l).length = l.length := by
  induction l with
  | nil => intro s; rfl
  | cons t rest ih => intro s; simp [reindexFrom, ih (s + 1)]

lemma filter_ne_then_eq (topics : List TopicRow) (cid : String) :
    (topics.filter (fun t => !(t.courseId == cid))).filter (fun t => t.courseId == cid) = [] := by
  induction topics with
  | nil => rfl
  | cons t rest ih =>
    by_cases h : t.courseId = cid
    · simp [List.filter_cons, h, ih]
    · simp [List.filter_cons, h, ih]

lemma markExtracted_flag (db : DB) (cid : String) :
    ∀ c ∈ (markExtracted db cid).courses, c.id = cid → c.topicsExtracted = true := by
  intro c hc hid
  unfold markExtracted at hc
  simp only [List.mem_map] at hc
  obtain ⟨c0, _, hc0⟩ := hc
  by_cases h : c0.id = cid
  · rw [← hc0]
    simp [h]
  · rw [← hc0] at hid
    simp [h] at hid

/-! ## Claim C6 -/

/-- Claim C6: for every input text whose trimmed length is below 50, the
validation phase of extractTopics aborts before the HTTP request with a failed
response carrying an empty topic list and an error message. -/
theorem c6_short_input_no_request (apiKey syllabusText : String)
    (h : (jsStrTrim syllabusText).length < 50) :
    preflightAborts (extractPreflight apiKey syllabusText) = true := by
  unfold extractPreflight
  by_cases hk : apiKey = ""
  · rw [if_pos hk]
    rfl
  · rw [if_neg hk, if_pos (Or.inr h)]
    rfl

/-- Witness for C6 at a concrete five character input. -/
theorem c6_short_input_no_request_witness :
    preflightAborts (extractPreflight "key" "short") = true :=
  c6_short_input_no_request "key" "short" (by decide)

/-! ## Claim C7 -/

/-- Claim C7 (amended): the substring classification respects the source check
order. A message with rate limit and none of the earlier recognized substrings
maps to the rate-limit message; a message with quota and without API key maps
to the billing message; a message with no recognized substring is wrapped in
the generic failure message. -/
theorem c7_error_classification (message : String) :
    ((strHas message "rate limit" = true ∧ strHas message "API key" = false ∧
      strHas message "quota" = false ∧ strHas message "billing" = false) →
      getErrorMessage message = rateLimitErrorMsg)
  ∧ ((strHas message "quota" = true ∧ strHas message "API key" = false) →
      getErrorMessage message = billingErrorMsg)
  ∧ ((strHas message "API key" = false ∧ strHas message "quota" = false ∧
      strHas message "billing" = false ∧ strHas message "rate limit" = false ∧
      strHas message "network" = false ∧ strHas message "fetch" = false) →
      getErrorMessage message = "Topic extraction failed: " ++ message) := by
  refine ⟨fun h => ?_, fun h => ?_, fun h => ?_⟩
  · obtain ⟨h1, h2, h3, h4⟩ := h
    simp [getErrorMessage, h1, h2, h3, h4]
  · obtain ⟨h1, h2⟩ := h
    simp [getErrorMessage, h1, h2]
  · obtain ⟨h1, h2, h3, h4, h5, h6⟩ := h
    simp [getErrorMessage, h1, h2, h3, h4, h5, h6]

/-- Counterexample for C7 as stated: the message containing rate limit also
contains quota, and the code maps it to the billing message, not the
rate-limit message. -/
theorem c7_counterexample :
    getErrorMessage "quota rate limit" = billingErrorMsg ∧
      billingErrorMsg ≠ rateLimitErrorMsg := ⟨by decide, by decide⟩

/-- Witness for C7 on three concrete messages, one per clause. -/
theorem c7_error_classification_witness :
    getErrorMessage "hit the rate limit" = rateLimitErrorMsg ∧
    getErrorMessage "quota exceeded" = billingErrorMsg ∧
    getErrorMessage "boom" = "Topic extraction failed: " ++ "boom" :=
  ⟨(c7_error_classification "hit the rate limit").1 (by decide),
   (c7_error_classification "quota exceeded").2.1 (by decide),
   (c7_error_classification "boom").2.2 (by decide)⟩

/-! ## Claim C5 -/

/-- Claim C5 (amended): for an entry with a non-empty string title, the
conversion keeps exactly the string-typed keyword entries in order; the
keywords field is absent exactly when the keywords value of the entry is not
an array, and is present (possibly empty) whenever it is an array. -/
theorem c5_keyword_filtering (index : Nat) (fields : List (String × Json)) (s : String)
    (ht : jsGet fields "title" = some (.str s)) (hs : s ≠ "") :
    convTopic index (.obj fields) = .ok
      { id := topicId index, title := jsStrTrim s, order := index + 1,
        keywords := match jsGet fields "keywords" with
          | some (Json.arr ks) => some (stringsOf ks)
          | _ => none } :=
  convTopic_eval index fields s ht hs

/-- Counterexample for C5 as stated: keywords [2, null] filters to no string
entries, yet the resulting keywords field is present as an empty array, not
dropped. -/
theorem c5_counterexample :
    convTopic 0 (.obj [("title", .str "T"), ("keywords", .arr [.num 2, .null])])
      = .ok { id := "topic-1", title := "T", order := 1, keywords := some [] }
    ∧ some ([] : List String) ≠ none := ⟨by rfl, by decide⟩

/-- Witness for C5 at the example of the spec: keywords [a, 2, b, null] give [a, b]. -/
theorem c5_keyword_filtering_witness :
    convTopic 0 (.obj [("title", .str "Topic A"),
        ("keywords", .arr [.str "a", .num 2, .str "b", .null])])
      = .ok { id := "topic-1", title := "Topic A", order := 1, keywords := some ["a", "b"] } :=
  (c5_keyword_filtering 0
    [("title", .str "Topic A"), ("keywords", .arr [.str "a", .num 2, .str "b", .null])]
    "Topic A" rfl (by decide)).trans (by rfl)

/-! ## Claim C8 -/

/-- Claim C8 (amended): the review screen removeTopic reindexes the remaining
topics so that their order values are exactly 1..n in array order. The
service level deleteTopic and createTopic do not maintain this invariant
(see the counterexample). -/
theorem c8_remove_reindexes (topicId : String) (topics : List ExtractedTopic) :
    (removeTopicLocal topicId topics).map (fun t => t.order)
      = List.range' 1 (removeTopicLocal topicId topics).length := by
  unfold removeTopicLocal
  simp [reindexFrom_orders, reindexFrom_length]

/-- Counterexample for C8 as stated: deleting the middle topic through
TopicService.deleteTopic succeeds and leaves order indices 1 and 3, which are
not densely packed. -/
theorem c8_counterexample :
    (deleteTopic c8db "t2").1.success = true ∧
    ((deleteTopic c8db "t2").2.topics.filter (fun t => t.courseId == "c")).map
        (fun t => t.orderIndex) = [1, 3] ∧
    denselyPacked [1, 3] = false := by decide

/-! ## Counterexamples for C1, C3, C4, C9 -/

/-- Counterexample for C1 as stated: a well-formed response whose topics array
has zero entries (so the per-entry title condition holds vacuously) makes
extraction fail instead of succeeding with zero topics. -/
theorem c1_counterexample :
    (extractTopicsWith "k" longText (.ok (some (.obj [("topics", .arr [])])))).success
      = false := by decide

/-- Counterexample for C3 as stated: on a course whose topicsExtracted flag was
already true, a failed insert after a successful delete returns an error and
leaves zero topics, but the flag remains true rather than unset. -/
theorem c3_counterexample :
    (saveTopicsForCourse c3db ⟨false, true, false⟩ "c" [⟨"e1", "New", 1, none⟩]).1.success
        = false ∧
    (saveTopicsForCourse c3db ⟨false, true, false⟩ "c" [⟨"e1", "New", 1, none⟩]).2.topics = [] ∧
    (saveTopicsForCourse c3db ⟨false, true, false⟩ "c" [⟨"e1", "New", 1, none⟩]).2.courses.map
        (fun c => c.topicsExtracted) = [true] := by decide

/-- Counterexample for C4 as stated: on the input a SPACE X01 SPACE b the
cleaner gives two adjacent spaces (the non-printable strip runs after the
whitespace collapse), so a second application changes the result. -/
theorem c4_counterexample :
    cleanExtractedText (cleanExtractedText c4ex) ≠ cleanExtractedText c4ex := by decide

/-- Counterexample for C9 as stated: a whitespace-only keyword is non-empty and
contains no separator, yet the round trip drops it because the split keeps only
parts with a truthy trim. -/
theorem c9_counterexample :
    (topicToExtractedTopic (completeRow "r1" 0 (extractedTopicToTopic c9et "c"))).keywords
        = some []
    ∧ c9et.keywords = some [" "]
    ∧ some ([] : List String) ≠ some [" "] := ⟨by rfl, rfl, by decide⟩

/-! ## Claim C3 -/

/-- Claim C3 (amended): when the delete succeeds and the bulk insert fails for
a nonempty topic list, the operation returns an error, the course is left with
zero topics (the previous topics are not restored), and the courses table is
untouched: the topicsExtracted flag keeps whatever value it had (in particular
a course not yet flagged stays unflagged, and the operation never sets it). -/
theorem c3_failed_insert_state (db : DB) (courseId uid : String) (ts : List ExtractedTopic)
    (h1 : db.currentUser = some uid) (h2 : ownsCourse db courseId uid = true) (hne : ts ≠ []) :
    (saveTopicsForCourse db ⟨false, true, false⟩ courseId ts).1.success = false ∧
    (saveTopicsForCourse db ⟨false, true, false⟩ courseId ts).2.topics
        = db.topics.filter (fun t => !(t.courseId == courseId)) ∧
    (saveTopicsForCourse db ⟨false, true, false⟩ courseId ts).2.courses = db.courses := by
  unfold saveTopicsForCourse
  rw [h1]
  simp [h2, deleteCourseTopics, List.length_eq_zero, hne]

/-- Witness for C3 at a concrete state and one-topic list. -/
theorem c3_failed_insert_state_witness :
    (saveTopicsForCourse c3db ⟨false, true, false⟩ "c" [⟨"e1", "New", 1, none⟩]).1.success
        = false ∧
    (saveTopicsForCourse c3db ⟨false, true, false⟩ "c" [⟨"e1", "New", 1, none⟩]).2.topics
        = c3db.topics.filter (fun t => !(t.courseId == "c")) ∧
    (saveTopicsForCourse c3db ⟨false, true, false⟩ "c" [⟨"e1", "New", 1, none⟩]).2.courses
        = c3db.courses :=
  c3_failed_insert_state c3db "c" "u" [⟨"e1", "New", 1, none⟩] rfl (by decide) (by simp)

/-! ## Claim C10 -/

/-- Claim C10: saving an empty topic list for an owned course succeeds, returns
an empty list, leaves the course with zero topics, and still sets the
topicsExtracted flag of the course. -/
theorem c10_empty_save (db : DB) (courseId uid : String)
    (h1 : db.currentUser = some uid) (h2 : ownsCourse db courseId uid = true) :
    (saveTopicsForCourse db noFailures courseId []).1.success = true ∧
    (saveTopicsForCourse db noFailures courseId []).1.data = some [] ∧
    ((saveTopicsForCourse db noFailures courseId []).2.topics.filter
        (fun t => t.courseId == courseId)) = [] ∧
    ∀ c ∈ (saveTopicsForCourse db noFailures courseId []).2.courses,
      c.id = courseId → c.topicsExtracted = true := by
  unfold saveTopicsForCourse
  rw [h1]
  simp only [h2, noFailures, Bool.not_true, Bool.false_eq_true, if_false, ite_false,
    List.length_nil]
  refine ⟨?_, ?_, ?_, ?_⟩
  · simp
  · simp
  · simp [deleteCourseTopics, markExtracted, filter_ne_then_eq]
  · intro c hc hid
    have := markExtracted_flag (deleteCourseTopics db courseId) courseId c ?_ hid
    · exact this
    · simpa using hc

/-- Witness for C10 at a concrete state holding one stale topic. -/
theorem c10_empty_save_witness :
    (saveTopicsForCourse c2db noFailures "c" []).1.success = true ∧
    (saveTopicsForCourse c2db noFailures "c" []).1.data = some [] ∧
    ((saveTopicsForCourse c2db noFailures "c" []).2.topics.filter
        (fun t => t.courseId == "c")) = [] := by
  have h := c10_empty_save c2db "c" "u" rfl (by decide)
  exact ⟨h.1, h.2.1, h.2.2.1⟩

/-! ## Claim C1 -/

lemma convTopics_ok (es : List Json) : ∀ start, (∀ e ∈ es, goodEntry e) →
    ∃ ts, convTopics start es = .ok ts ∧ ts.length = es.length ∧
      ts.map (fun t => t.id) = (List.range' start es.length).map topicId ∧
      ts.map (fun t => t.order) = (List.range' start es.length).map (fun i => i + 1) := by
  induction es with
  | nil =>
    intro start _
    exact ⟨[], rfl, rfl, rfl, rfl⟩
  | cons e rest ih =>
    intro start h
    obtain ⟨fields, s, he, ht, hs⟩ := h e (List.mem_cons_self e rest)
    subst he
    obtain ⟨ts, hconv, hlen, hids, hords⟩ :=
      ih (start + 1) (fun x hx => h x (List.mem_cons_of_mem _ hx))
    refine ⟨{ id := topicId start, title := jsStrTrim s, order := start + 1,
              keywords := match jsGet fields "keywords" with
                | some (Json.arr ks) => some (stringsOf ks)
                | _ => none } :: ts, ?_, by simp [hlen], ?_, ?_⟩
    · simp only [convTopics, convTopic_eval start fields s ht hs, hconv]
    · simp only [List.length_cons, List.range'_succ, List.map_cons, hids]
    · simp only [List.length_cons, List.range'_succ, List.map_cons, hords]

/-- Claim C1 (amended): for a well-formed provider response whose content is a
JSON object with a topics array of N entries, N at least 1, each entry carrying
a non-empty string title, extraction succeeds and returns exactly N topics in
array order, where the entry at 0-based index i gets identifier topic-(i+1)
and order i+1. -/
theorem c1_extract_orders (apiKey syllabusText : String) (cfields : List (String × Json))
    (entries : List Json)
    (hk : apiKey ≠ "") (hlen : 50 ≤ (jsStrTrim syllabusText).length)
    (htopics : jsGet cfields "topics" = some (.arr entries))
    (hne : entries ≠ []) (hgood : ∀ e ∈ entries, goodEntry e) :
    (extractTopicsWith apiKey syllabusText (.ok (some (.obj cfields)))).success = true ∧
    (extractTopicsWith apiKey syllabusText (.ok (some (.obj cfields)))).topics.length
        = entries.length ∧
    (extractTopicsWith apiKey syllabusText (.ok (some (.obj cfields)))).topics.map
        (fun t => t.id) = (List.range' 0 entries.length).map topicId ∧
    (extractTopicsWith apiKey syllabusText (.ok (some (.obj cfields)))).topics.map
        (fun t => t.order) = (List.range' 0 entries.length).map (fun i => i + 1) := by
  have hstext : ¬(syllabusText = "" ∨ (jsStrTrim syllabusText).length < 50) := by
    rintro (h | h)
    · rw [h] at hlen
      simp [jsStrTrim, trimJS, dropWS] at hlen
    · omega
  obtain ⟨ts, hconv, hlen', hids, hords⟩ := convTopics_ok entries 0 hgood
  have hresp : extractTopicsWith apiKey syllabusText (.ok (some (.obj cfields)))
      = { success := true, topics := ts, error := none } := by
    have hts : ts.length ≠ 0 := by
      rw [hlen']
      simpa using hne
    simp only [extractTopicsWith, extractPreflight, if_neg hk, if_neg hstext,
      parseContentTopics, htopics, truthy, hconv, if_neg hts]
    simp
  rw [hresp]
  exact ⟨rfl, hlen', hids, hords⟩

/-- Witness for C1 at a one-entry response and a 60 character input. -/
theorem c1_extract_orders_witness :
    (extractTopicsWith "k" longText
        (.ok (some (.obj [("topics", .arr [.obj [("title", .str "Intro")]])])))).success = true ∧
    (extractTopicsWith "k" longText
        (.ok (some (.obj [("topics", .arr [.obj [("title", .str "Intro")]])])))).topics.length
        = [Json.obj [("title", Json.str "Intro")]].length ∧
    (extractTopicsWith "k" longText
        (.ok (some (.obj [("topics", .arr [.obj [("title", .str "Intro")]])])))).topics.map
        (fun t => t.id)
        = (List.range' 0 [Json.obj [("title", Json.str "Intro")]].length).map topicId ∧
    (extractTopicsWith "k" longText
        (.ok (some (.obj [("topics", .arr [.obj [("title", .str "Intro")]])])))).topics.map
        (fun t => t.order)
        = (List.range' 0 [Json.obj [("title", Json.str "Intro")]].length).map
            (fun i => i + 1) :=
  c1_extract_orders "k" longText [("topics", .arr [.obj [("title", .str "Intro")]])]
    [.obj [("title", .str "Intro")]] (by decide) (by decide) rfl (by simp)
    (by
      intro e he
      simp only [List.mem_singleton] at he
      subst he
      exact ⟨[("title", .str "Intro")], "Intro", rfl, rfl, by decide⟩)

/-! ## Claim C2 -/

lemma deleteCourseTopics_topics (db : DB) (cid : String) :
    (deleteCourseTopics db cid).topics = db.topics.filter (fun t => !(t.courseId == cid)) := rfl

lemma deleteCourseTopics_nextTopicId (db : DB) (cid : String) :
    (deleteCourseTopics db cid).nextTopicId = db.nextTopicId := rfl

lemma deleteCourseTopics_now (db : DB) (cid : String) :
    (deleteCourseTopics db cid).now = db.now := rfl

lemma insertTopicRows_topics (db : DB) (rows : List TopicRow) :
    (insertTopicRows db rows).topics = db.topics ++ rows := rfl

lemma markExtracted_topics (db : DB) (cid : String) :
    (markExtracted db cid).topics = db.topics := rfl

lemma markExtracted_currentUser (db : DB) (cid : String) :
    (markExtracted db cid).currentUser = db.currentUser := rfl

lemma insertTopicRows_currentUser (db : DB) (rows : List TopicRow) :
    (insertTopicRows db rows).currentUser = db.currentUser := rfl

lemma deleteCourseTopics_currentUser (db : DB) (cid : String) :
    (deleteCourseTopics db cid).currentUser = db.currentUser := rfl

lemma ownFilter_map_length (cs : List CourseRow) (cid2 cid uid : String) (t : Nat) :
    ((cs.map (fun c =>
        if c.id = cid2 then { c with topicsExtracted := true, updatedAt := t } else c)).filter
          (fun c => c.id == cid && c.userId == uid)).length
      = (cs.filter (fun c => c.id == cid && c.userId == uid)).length := by
  induction cs with
  | nil => rfl
  | cons c rest ih =>
    have hpred :
        ((if c.id = cid2 then { c with topicsExtracted := true, updatedAt := t } else c).id == cid
          && (if c.id = cid2 then
                { c with topicsExtracted := true, updatedAt := t } else c).userId == uid)
        = (c.id == cid && c.userId == uid) := by
      by_cases hc : c.id = cid2 <;> simp [hc]
    rw [List.map_cons, List.filter_cons, List.filter_cons, hpred]
    cases hb : (c.id == cid && c.userId == uid) <;> simp [hb, ih]

lemma ownsCourse_markExtracted (db : DB) (cid2 cid uid : String) :
    ownsCourse (markExtracted db cid2) cid uid = ownsCourse db cid uid := by
  unfold ownsCourse markExtracted
  simp only
  rw [ownFilter_map_length]

lemma ownsCourse_insertTopicRows (db : DB) (rows : List TopicRow) (cid uid : String) :
    ownsCourse (insertTopicRows db rows) cid uid = ownsCourse db cid uid := rfl

lemma ownsCourse_deleteCourseTopics (db : DB) (cid2 cid uid : String) :
    ownsCourse (deleteCourseTopics db cid2) cid uid = ownsCourse db cid uid := rfl

/-- Claim C2: for an owned course, saving titles X (order 1) and Y (order 2)
with all backend writes succeeding and then fetching the topics of the course
returns exactly those two rows, X before Y, and the topicsExtracted flag of the
course is true afterwards. -/
theorem c2_round_trip (db : DB) (courseId uid ida idb : String)
    (kwa kwb : Option (List String))
    (h1 : db.currentUser = some uid) (h2 : ownsCourse db courseId uid = true) :
    (saveTopicsForCourse db noFailures courseId
        [⟨ida, "X", 1, kwa⟩, ⟨idb, "Y", 2, kwb⟩]).1.success = true ∧
    (∃ a b, (getTopicsForCourse (saveTopicsForCourse db noFailures courseId
          [⟨ida, "X", 1, kwa⟩, ⟨idb, "Y", 2, kwb⟩]).2 courseId).success = true ∧
      (getTopicsForCourse (saveTopicsForCourse db noFailures courseId
          [⟨ida, "X", 1, kwa⟩, ⟨idb, "Y", 2, kwb⟩]).2 courseId).data = some [a, b] ∧
      a.title = "X" ∧ b.title = "Y" ∧ a.orderIndex = 1 ∧ b.orderIndex = 2) ∧
    ∀ c ∈ (saveTopicsForCourse db noFailures courseId
        [⟨ida, "X", 1, kwa⟩, ⟨idb, "Y", 2, kwb⟩]).2.courses,
      c.id = courseId → c.topicsExtracted = true := by
  have hrows : buildRows db.nextTopicId db.now courseId 0
      [⟨ida, "X", 1, kwa⟩, ⟨idb, "Y", 2, kwb⟩]
      = [⟨"row-" ++ Nat.repr db.nextTopicId, courseId, "X", keywordContent kwa, 1, db.now⟩,
         ⟨"row-" ++ Nat.repr (db.nextTopicId + 1), courseId, "Y", keywordContent kwb, 2, db.now⟩] := by
    simp [buildRows]
  have hsave : saveTopicsForCourse db noFailures courseId
      [⟨ida, "X", 1, kwa⟩, ⟨idb, "Y", 2, kwb⟩]
      = (⟨some [⟨"row-" ++ Nat.repr db.nextTopicId, courseId, "X", keywordContent kwa, 1, db.now⟩,
               ⟨"row-" ++ Nat.repr (db.nextTopicId + 1), courseId, "Y", keywordContent kwb, 2,
                db.now⟩], none, true⟩,
         markExtracted (insertTopicRows (deleteCourseTopics db courseId)
           [⟨"row-" ++ Nat.repr db.nextTopicId, courseId, "X", keywordContent kwa, 1, db.now⟩,
            ⟨"row-" ++ Nat.repr (db.nextTopicId + 1), courseId, "Y", keywordContent kwb, 2,
             db.now⟩]) courseId) := by
    unfold saveTopicsForCourse
    rw [h1]
    simp only [h2, Bool.not_true, Bool.false_eq_true, if_false, noFailures, List.length_cons,
      List.length_nil, deleteCourseTopics_nextTopicId, deleteCourseTopics_now, hrows]
    simp
  rw [hsave]
  have hget : getTopicsForCourse (markExtracted (insertTopicRows (deleteCourseTopics db courseId)
      [⟨"row-" ++ Nat.repr db.nextTopicId, courseId, "X", keywordContent kwa, 1, db.now⟩,
       ⟨"row-" ++ Nat.repr (db.nextTopicId + 1), courseId, "Y", keywordContent kwb, 2,
        db.now⟩]) courseId) courseId
      = ⟨some [⟨"row-" ++ Nat.repr db.nextTopicId, courseId, "X", keywordContent kwa, 1, db.now⟩,
              ⟨"row-" ++ Nat.repr (db.nextTopicId + 1), courseId, "Y", keywordContent kwb, 2,
               db.now⟩], none, true⟩ := by
    unfold getTopicsForCourse
    rw [markExtracted_currentUser, insertTopicRows_currentUser, deleteCourseTopics_currentUser, h1]
    simp only [ownsCourse_markExtracted, ownsCourse_insertTopicRows,
      ownsCourse_deleteCourseTopics, h2, Bool.not_true, Bool.false_eq_true, if_false,
      markExtracted_topics, insertTopicRows_topics, deleteCourseTopics_topics]
    rw [List.filter_append, filter_ne_then_eq]
    simp [sortByOrder, insertByOrder]
  rw [hget]
  refine ⟨rfl, ⟨_, _, rfl, rfl, rfl, rfl, rfl, rfl⟩, ?_⟩
  exact markExtracted_flag _ courseId

/-- Witness for C2 at a concrete state holding one stale topic. -/
theorem c2_round_trip_witness :
    (saveTopicsForCourse c2db noFailures "c"
        [⟨"ia", "X", 1, none⟩, ⟨"ib", "Y", 2, none⟩]).1.success = true ∧
    (getTopicsForCourse (saveTopicsForCourse c2db noFailures "c"
        [⟨"ia", "X", 1, none⟩, ⟨"ib", "Y", 2, none⟩]).2 "c").success = true := by
  have h := c2_round_trip c2db "c" "u" "ia" "ib" none none rfl (by decide)
  obtain ⟨a, b, hgs, _⟩ := h.2.1
  exact ⟨h.1, hgs⟩

/-! ## Claim C9 -/

lemma joinKeywords_data (ks : List String) :
    (joinKeywords ks).data = joinChars (ks.map String.data) := by
  induction ks with
  | nil => rfl
  | cons k rest ih =>
    cases rest with
    | nil => rfl
    | cons k2 r2 =>
      show (k ++ ", " ++ joinKeywords (k2 :: r2)).data
          = k.data ++ ',' :: ' ' :: joinChars ((k2 :: r2).map String.data)
      rw [String.data_append, String.data_append, ih, List.append_assoc]
      rfl

lemma hasSub_tail (pat : List Char) (c : Char) (rest : List Char)
    (h : hasSub pat (c :: rest) = false) : hasSub pat rest = false := by
  simp only [hasSub, Bool.or_eq_false_iff] at h
  exact h.2

lemma hasSub_head_window (a b : Char) (rest : List Char)
    (h : hasSub commaSpace (a :: b :: rest) = false) : ¬(a = ',' ∧ b = ' ') := by
  simp only [hasSub, commaSpace, leadsWith, Bool.or_eq_false_iff, Bool.and_eq_false_iff] at h
  rintro ⟨rfl, rfl⟩
  simp at h

lemma splitCS_cons2 (a b : Char) (rest : List Char) :
    splitCS (a :: b :: rest) = if a = ',' ∧ b = ' ' then [] :: splitCS rest
      else match splitCS (b :: rest) with
        | [] => [[a]]
        | p :: ps => (a :: p) :: ps := rfl

lemma splitCS_sep (t : List Char) : splitCS (',' :: ' ' :: t) = [] :: splitCS t := by
  rw [splitCS_cons2, if_pos ⟨rfl, rfl⟩]

lemma splitCS_noSep (k : List Char) (h : hasSub commaSpace k = false) : splitCS k = [k] := by
  induction k with
  | nil => rfl
  | cons a k' ih =>
    cases k' with
    | nil => rfl
    | cons b k'' =>
      have hw : ¬(a = ',' ∧ b = ' ') := hasSub_head_window a b k'' h
      have ht : hasSub commaSpace (b :: k'') = false := hasSub_tail _ _ _ h
      rw [splitCS_cons2, if_neg hw, ih ht]

lemma splitCS_boundary (k : List Char) : ∀ t, hasSub commaSpace k = false →
    splitCS (k ++ ',' :: ' ' :: t) = k :: splitCS t := by
  induction k with
  | nil =>
    intro t _
    exact splitCS_sep t
  | cons a k' ih =>
    intro t h
    cases k' with
    | nil =>
      show splitCS (a :: ',' :: ' ' :: t) = [a] :: splitCS t
      rw [splitCS_cons2, if_neg (by rintro ⟨rfl, h2⟩; exact absurd h2 (by decide)), splitCS_sep t]
    | cons b k'' =>
      have hw : ¬(a = ',' ∧ b = ' ') := hasSub_head_window a b k'' h
      have ht : hasSub commaSpace (b :: k'') = false := hasSub_tail _ _ _ h
      show splitCS (a :: b :: (k'' ++ ',' :: ' ' :: t)) = (a :: b :: k'') :: splitCS t
      rw [splitCS_cons2, if_neg hw]
      have hb : splitCS (b :: (k'' ++ ',' :: ' ' :: t)) = (b :: k'') :: splitCS t := ih t ht
      rw [hb]

lemma splitCS_joinChars (ks : List (List Char)) : ks ≠ [] →
    (∀ k ∈ ks, hasSub commaSpace k = false) → splitCS (joinChars ks) = ks := by
  induction ks with
  | nil => intro h; exact absurd rfl h
  | cons k rest ih =>
    intro _ h
    cases rest with
    | nil => exact splitCS_noSep k (h k (List.mem_cons_self k []))
    | cons k2 r2 =>
      show splitCS (k ++ ',' :: ' ' :: joinChars (k2 :: r2)) = k :: k2 :: r2
      rw [splitCS_boundary k _ (h k (List.mem_cons_self k _)),
        ih (by simp) (fun x hx => h x (List.mem_cons_of_mem _ hx))]

lemma map_mk_data (l : List String) : (l.map String.data).map String.mk = l := by
  induction l with
  | nil => rfl
  | cons s rest ih => simp [ih]

/-- Claim C9 (amended): for an ExtractedTopic whose keywords list is present
and whose keywords each contain no COMMA SPACE substring and are non-blank
(their trim is non-empty), converting to a database record and back preserves
title, order, and keywords exactly. -/
theorem c9_round_trip (et : ExtractedTopic) (courseId rowId : String) (createdAt : Nat)
    (ks : List String) (hk : et.keywords = some ks)
    (hgood : ∀ k ∈ ks, hasSub commaSpace k.data = false ∧ jsStrTrim k ≠ "") :
    (topicToExtractedTopic (completeRow rowId createdAt
        (extractedTopicToTopic et courseId))).title = et.title ∧
    (topicToExtractedTopic (completeRow rowId createdAt
        (extractedTopicToTopic et courseId))).order = et.order ∧
    (topicToExtractedTopic (completeRow rowId createdAt
        (extractedTopicToTopic et courseId))).keywords = some ks := by
  refine ⟨rfl, rfl, ?_⟩
  simp only [topicToExtractedTopic, completeRow, extractedTopicToTopic, hk, keywordContent]
  cases ks with
  | nil => simp [joinKeywords]
  | cons k rest =>
    have hkne : k.data ≠ [] := by
      intro hd
      have hke : k = "" := by
        cases k
        simp at hd
        rw [hd]
      exact (hgood k (List.mem_cons_self k rest)).2 (by rw [hke]; rfl)
    have hcontent : joinKeywords (k :: rest) ≠ "" := by
      intro hc
      have hd : (joinKeywords (k :: rest)).data = [] := by rw [hc]
      rw [joinKeywords_data] at hd
      cases rest with
      | nil => exact hkne hd
      | cons k2 r2 =>
        have : k.data ++ ',' :: ' ' :: joinChars ((k2 :: r2).map String.data) = [] := hd
        simp at this
    rw [if_neg hcontent, joinKeywords_data,
      splitCS_joinChars _ (by simp) (by
        intro x hx
        simp only [List.mem_map] at hx
        obtain ⟨k0, hk0, hx0⟩ := hx
        rw [← hx0]
        exact (hgood k0 hk0).1),
      map_mk_data, List.filter_eq_self.mpr (by
        intro a ha
        have hta := (hgood a ha).2
        simp [hta])]

/-- Witness for C9 at a concrete topic with two keywords. -/
theorem c9_round_trip_witness :
    (topicToExtractedTopic (completeRow "r" 5 (extractedTopicToTopic
        ⟨"e", "Ti", 3, some ["alpha", "beta"]⟩ "c"))).title = "Ti" ∧
    (topicToExtractedTopic (completeRow "r" 5 (extractedTopicToTopic
        ⟨"e", "Ti", 3, some ["alpha", "beta"]⟩ "c"))).order = 3 ∧
    (topicToExtractedTopic (completeRow "r" 5 (extractedTopicToTopic
        ⟨"e", "Ti", 3, some ["alpha", "beta"]⟩ "c"))).keywords = some ["alpha", "beta"] :=
  c9_round_trip ⟨"e", "Ti", 3, some ["alpha", "beta"]⟩ "c" "r" 5 ["alpha", "beta"] rfl (by decide)

/-! ## Claim C4: stage lemmas for the cleaning pipeline -/

lemma mem_replCRLF {c : Char} : ∀ l, c ∈ replCRLF l → c ∈ l ∨ c = '\n' := by
  intro l
  induction l using replCRLF.induct with
  | case1 => intro h; exact absurd h (by simp [replCRLF])
  | case2 d => intro h; rw [replCRLF] at h; exact Or.inl h
  | case3 a b rest hif ih =>
    intro h
    rw [replCRLF, if_pos hif] at h
    rcases List.mem_cons.mp h with h | h
    · exact Or.inr h
    · rcases ih h with h | h
      · exact Or.inl (List.mem_cons_of_mem _ (List.mem_cons_of_mem _ h))
      · exact Or.inr h
  | case4 a b rest hif ih =>
    intro h
    rw [replCRLF, if_neg hif] at h
    rcases List.mem_cons.mp h with h | h
    · exact Or.inl (h ▸ List.mem_cons_self a _)
    · rcases ih h with h | h
      · exact Or.inl (List.mem_cons_of_mem _ h)
      · exact Or.inr h

lemma not_cr_replCR (l : List Char) : '\r' ∉ replCR l := by
  intro h
  simp only [replCR, List.mem_map] at h
  obtain ⟨a, _, ha⟩ := h
  by_cases hc : a = '\r' <;> simp [hc] at ha

lemma mem_replCR {c : Char} (l : List Char) (h : c ∈ replCR l) : c ∈ l ∨ c = '\n' := by
  simp only [replCR, List.mem_map] at h
  obtain ⟨a, hal, ha⟩ := h
  by_cases hc : a = '\r'
  · rw [hc] at ha
    simp at ha
    exact Or.inr ha.symm
  · rw [if_neg hc] at ha
    exact Or.inl (ha ▸ hal)

lemma mem_nlRun {c : Char} : ∀ (l : List Char) (k : Nat), c ∈ nlRun k l → c ∈ l := by
  intro l
  induction l with
  | nil => intro k h; exact absurd h (by simp [nlRun])
  | cons d rest ih =>
    intro k h
    rw [nlRun] at h
    by_cases hd : d = '\n'
    · rw [if_pos hd] at h
      by_cases hk : 2 ≤ k
      · rw [if_pos hk] at h
        exact List.mem_cons_of_mem _ (ih k h)
      · rw [if_neg hk] at h
        rcases List.mem_cons.mp h with h | h
        · rw [h, hd]; exact List.mem_cons_self _ _
        · exact List.mem_cons_of_mem _ (ih (k + 1) h)
    · rw [if_neg hd] at h
      rcases List.mem_cons.mp h with h | h
      · rw [h]; exact List.mem_cons_self _ _
      · exact List.mem_cons_of_mem _ (ih 0 h)

lemma mem_wsRun {c : Char} : ∀ (l : List Char) (b : Bool),
    c ∈ wsRun b l → c = ' ' ∨ (c ∈ l ∧ isHWS c = false) := by
  intro l
  induction l with
  | nil => intro b h; exact absurd h (by simp [wsRun])
  | cons d rest ih =>
    intro b h
    rw [wsRun] at h
    by_cases hd : isHWS d = true
    · rw [if_pos hd] at h
      cases b with
      | true =>
        rw [if_pos rfl] at h
        rcases ih true h with h | h
        · exact Or.inl h
        · exact Or.inr ⟨List.mem_cons_of_mem _ h.1, h.2⟩
      | false =>
        simp only [Bool.false_eq_true, if_false] at h
        rcases List.mem_cons.mp h with h | h
        · exact Or.inl h
        · rcases ih true h with h | h
          · exact Or.inl h
          · exact Or.inr ⟨List.mem_cons_of_mem _ h.1, h.2⟩
    · rw [if_neg hd] at h
      rcases List.mem_cons.mp h with h | h
      · exact Or.inr ⟨h ▸ List.mem_cons_self d rest, h ▸ (by simpa using hd)⟩
      · rcases ih false h with h | h
        · exact Or.inl h
        · exact Or.inr ⟨List.mem_cons_of_mem _ h.1, h.2⟩

lemma len_replCRLF : ∀ l : List Char, (replCRLF l).length ≤ l.length := by
  intro l
  induction l using replCRLF.induct with
  | case1 => simp [replCRLF]
  | case2 d => simp [replCRLF]
  | case3 a b rest hif ih =>
    rw [replCRLF, if_pos hif]
    simp only [List.length_cons]
    omega
  | case4 a b rest hif ih =>
    rw [replCRLF, if_neg hif]
    simp only [List.length_cons]
    simp only [List.length_cons] at ih
    omega

lemma len_replCR (l : List Char) : (replCR l).length = l.length := by
  simp [replCR]

lemma len_nlRun : ∀ (l : List Char) (k : Nat), (nlRun k l).length ≤ l.length := by
  intro l
  induction l with
  | nil => intro k; simp [nlRun]
  | cons d rest ih =>
    intro k
    rw [nlRun]
    by_cases hd : d = '\n'
    · rw [if_pos hd]
      by_cases hk : 2 ≤ k
      · rw [if_pos hk]
        have := ih k
        simp only [List.length_cons]
        omega
      · rw [if_neg hk]
        simp only [List.length_cons]
        have := ih (k + 1)
        omega
    · rw [if_neg hd]
      simp only [List.length_cons]
      have := ih 0
      omega

lemma len_wsRun : ∀ (l : List Char) (b : Bool), (wsRun b l).length ≤ l.length := by
  intro l
  induction l with
  | nil => intro b; simp [wsRun]
  | cons d rest ih =>
    intro b
    rw [wsRun]
    by_cases hd : isHWS d = true
    · rw [if_pos hd]
      cases b with
      | true =>
        rw [if_pos rfl]
        have := ih true
        simp only [List.length_cons]
        omega
      | false =>
        simp only [Bool.false_eq_true, if_false, List.length_cons]
        have := ih true
        omega
    · rw [if_neg hd]
      simp only [List.length_cons]
      have := ih false
      omega

lemma trimJS_decomp (l : List Char) : ∃ p q, l = p ++ trimJS l ++ q := by
  refine ⟨l.takeWhile isJsWS, ((dropWS l).reverse.takeWhile isJsWS).reverse, ?_⟩
  unfold trimJS
  conv_lhs => rw [← List.takeWhile_append_dropWhile isJsWS l]
  rw [List.append_assoc]
  congr 1
  show dropWS l = trimJS l ++ ((dropWS l).reverse.takeWhile isJsWS).reverse
  unfold trimJS
  conv_lhs => rw [← List.reverse_reverse (dropWS l),
    ← List.takeWhile_append_dropWhile isJsWS (dropWS l).reverse]
  rw [List.reverse_append]

lemma mem_trimJS {c : Char} (l : List Char) (h : c ∈ trimJS l) : c ∈ l := by
  obtain ⟨p, q, hd⟩ := trimJS_decomp l
  rw [hd]
  simp only [List.mem_append]
  exact Or.inl (Or.inr h)

lemma len_trimJS (l : List Char) : (trimJS l).length ≤ l.length := by
  obtain ⟨p, q, hd⟩ := trimJS_decomp l
  conv_rhs => rw [hd]
  simp only [List.length_append]
  omega

lemma replCRLF_id : ∀ l : List Char, '\r' ∉ l → replCRLF l = l := by
  intro l
  induction l using replCRLF.induct with
  | case1 => intro _; rfl
  | case2 d => intro _; rfl
  | case3 a b rest hif ih =>
    intro h
    apply absurd _ h
    rw [← hif.1]
    exact List.mem_cons_self a (b :: rest)
  | case4 a b rest hif ih =>
    intro h
    rw [replCRLF, if_neg hif, ih (fun hc => h (List.mem_cons_of_mem _ hc))]

lemma replCR_id (l : List Char) (h : '\r' ∉ l) : replCR l = l := by
  unfold replCR
  conv_rhs => rw [← List.map_id l]
  apply List.map_congr_left
  intro a ha
  have hne : a ≠ '\r' := fun hc => h (hc ▸ ha)
  rw [if_neg hne]
  rfl

/-! ## Claim C4: newline run machinery -/

lemma okNL_cons3 (a b c : Char) (rest : List Char) :
    okNL (a :: b :: c :: rest)
      = (!(a == '\n' && b == '\n' && c == '\n') && okNL (b :: c :: rest)) := rfl

lemma okNL_tail (a : Char) (l : List Char) (h : okNL (a :: l) = true) : okNL l = true := by
  match l with
  | [] => rfl
  | [b] => rfl
  | b :: c :: rest =>
    rw [okNL_cons3] at h
    simp only [Bool.and_eq_true] at h
    exact h.2

lemma okNL_append_right (l m : List Char) (h : okNL (l ++ m) = true) : okNL m = true := by
  induction l with
  | nil => exact h
  | cons a l' ih => exact ih (okNL_tail _ _ h)

lemma okNL_append_left (l m : List Char) (h : okNL (l ++ m) = true) : okNL l = true := by
  induction l with
  | nil => rfl
  | cons a l' ih =>
    match l' with
    | [] => rfl
    | [b] => rfl
    | b :: c :: rest =>
      simp only [List.cons_append] at h ih
      rw [okNL_cons3] at h ⊢
      simp only [Bool.and_eq_true] at h ⊢
      exact ⟨h.1, ih h.2⟩

lemma okNL_cons_of_ne (a : Char) (ha : a ≠ '\n') (l : List Char) (h : okNL l = true) :
    okNL (a :: l) = true := by
  match l with
  | [] => rfl
  | [b] => rfl
  | b :: c :: rest =>
    rw [okNL_cons3]
    simp [ha, h]

lemma okNL_cons_nl (l : List Char) (h : okNL l = true)
    (h2 : ¬(l.head? = some '\n' ∧ l.tail.head? = some '\n')) : okNL ('\n' :: l) = true := by
  match l with
  | [] => rfl
  | [b] => rfl
  | b :: c :: rest =>
    have hbc : ¬(b = '\n' ∧ c = '\n') := by
      intro hp
      exact h2 ⟨by simp [hp.1], by simp [hp.2]⟩
    by_cases hb : b = '\n'
    · by_cases hc : c = '\n'
      · exact absurd ⟨hb, hc⟩ hbc
      · rw [okNL_cons3]
        rw [hb] at h ⊢
        simp [hc, h]
    · rw [okNL_cons3]
      simp [hb, h]

lemma head_nlRun2 : ∀ l : List Char, (nlRun 2 l).head? ≠ some '\n' := by
  intro l
  induction l with
  | nil => simp [nlRun]
  | cons d rest ih =>
    rw [nlRun]
    by_cases hd : d = '\n'
    · rw [if_pos hd, if_pos (by omega : 2 ≤ 2)]
      exact ih
    · rw [if_neg hd]
      simp [hd]

lemma okNL_nlRun : ∀ (l : List Char) (k : Nat), okNL (nlRun k l) = true := by
  intro l
  induction l with
  | nil => intro k; rfl
  | cons d rest ih =>
    intro k
    rw [nlRun]
    by_cases hd : d = '\n'
    · rw [if_pos hd]
      by_cases hk : 2 ≤ k
      · rw [if_pos hk]
        exact ih k
      · rw [if_neg hk]
        refine okNL_cons_nl _ (ih (k + 1)) ?_
        rintro ⟨hp1, hp2⟩
        have hk01 : k = 0 ∨ k = 1 := by omega
        rcases hk01 with rfl | rfl
        · -- state 1 after this newline
          cases rest with
          | nil => simp [nlRun] at hp1
          | cons e r2 =>
            rw [nlRun] at hp1 hp2
            by_cases he : e = '\n'
            · rw [if_pos he, if_neg (by omega : ¬2 ≤ 1)] at hp1 hp2
              simp only [List.head?_cons, List.tail_cons] at hp1 hp2
              exact head_nlRun2 r2 hp2
            · rw [if_neg he] at hp1
              simp [he] at hp1
        · -- state 2 after this newline
          exact head_nlRun2 rest hp1
    · rw [if_neg hd]
      exact okNL_cons_of_ne d hd _ (ih 0)

lemma nlRun_id : ∀ (l : List Char) (k : Nat), k ≤ 2 →
    okNL (List.replicate k '\n' ++ l) = true → nlRun k l = l := by
  intro l
  induction l with
  | nil => intro k _ _; rfl
  | cons d rest ih =>
    intro k hk2 h
    rw [nlRun]
    by_cases hd : d = '\n'
    · rw [if_pos hd]
      by_cases hge : 2 ≤ k
      · exfalso
        have hk : k = 2 := by omega
        subst hk
        rw [hd] at h
        simp only [List.replicate, List.cons_append, List.nil_append] at h
        rw [okNL_cons3] at h
        simp at h
      · rw [if_neg hge, hd]
        congr 1
        apply ih (k + 1) (by omega)
        have heq : List.replicate k '\n' ++ d :: rest
            = List.replicate (k + 1) '\n' ++ rest := by
          rw [hd, List.replicate_succ', List.append_assoc]
          rfl
        rw [← heq]
        exact h
    · rw [if_neg hd]
      congr 1
      apply ih 0 (by omega)
      have h1 := okNL_append_right _ _ h
      simpa using okNL_tail _ _ h1

/-! ## Claim C4: whitespace run and trim machinery -/

lemma okWS_cons2 (a b : Char) (rest : List Char) :
    okWS (a :: b :: rest) = (!(isHWS a && isHWS b) && okWS (b :: rest)) := rfl

lemma okWS_tail (a : Char) (l : List Char) (h : okWS (a :: l) = true) : okWS l = true := by
  match l with
  | [] => rfl
  | b :: rest =>
    rw [okWS_cons2] at h
    simp only [Bool.and_eq_true] at h
    exact h.2

lemma okWS_append_right (l m : List Char) (h : okWS (l ++ m) = true) : okWS m = true := by
  induction l with
  | nil => exact h
  | cons a l' ih => exact ih (okWS_tail _ _ h)

lemma okWS_append_left (l m : List Char) (h : okWS (l ++ m) = true) : okWS l = true := by
  induction l with
  | nil => rfl
  | cons a l' ih =>
    match l' with
    | [] => rfl
    | b :: rest =>
      simp only [List.cons_append] at h ih
      rw [okWS_cons2] at h ⊢
      simp only [Bool.and_eq_true] at h ⊢
      exact ⟨h.1, ih h.2⟩

lemma okWS_cons (a : Char) (l : List Char) (h : okWS l = true)
    (hh : ∀ d, l.head? = some d → (isHWS a && isHWS d) = false) : okWS (a :: l) = true := by
  match l with
  | [] => rfl
  | b :: rest =>
    rw [okWS_cons2]
    simp [h, hh b rfl]

lemma head_wsRun_true : ∀ (l : List Char) (d : Char),
    (wsRun true l).head? = some d → isHWS d = false := by
  intro l
  induction l with
  | nil => intro d h; simp [wsRun] at h
  | cons e rest ih =>
    intro d h
    rw [wsRun] at h
    by_cases he : isHWS e = true
    · rw [if_pos he, if_pos rfl] at h
      exact ih d h
    · rw [if_neg he] at h
      simp only [List.head?_cons, Option.some.injEq] at h
      rw [← h]
      simpa using he

lemma okWS_wsRun : ∀ (l : List Char) (b : Bool), okWS (wsRun b l) = true := by
  intro l
  induction l with
  | nil => intro b; rfl
  | cons d rest ih =>
    intro b
    rw [wsRun]
    by_cases hd : isHWS d = true
    · rw [if_pos hd]
      cases b with
      | true => exact ih true
      | false =>
        simp only [Bool.false_eq_true, if_false]
        refine okWS_cons ' ' _ (ih true) ?_
        intro e he
        rw [head_wsRun_true rest e he]
        simp
    · rw [if_neg hd]
      refine okWS_cons d _ (ih false) ?_
      intro e _
      simp only [Bool.and_eq_false_iff]
      left
      simpa using hd

lemma okNL_wsRun : ∀ (l : List Char) (b : Bool), okNL l = true → okNL (wsRun b l) = true := by
  intro l
  induction l with
  | nil => intro b _; rfl
  | cons d rest ih =>
    intro b h
    have hrest : okNL rest = true := okNL_tail _ _ h
    rw [wsRun]
    by_cases hd : isHWS d = true
    · rw [if_pos hd]
      cases b with
      | true => exact ih true hrest
      | false =>
        simp only [Bool.false_eq_true, if_false]
        exact okNL_cons_of_ne ' ' (by decide) _ (ih true hrest)
    · rw [if_neg hd]
      by_cases hdn : d = '\n'
      · subst hdn
        refine okNL_cons_nl _ (ih false hrest) ?_
        rintro ⟨hp1, hp2⟩
        cases rest with
        | nil => simp [wsRun] at hp1
        | cons e r2 =>
          rw [wsRun] at hp1 hp2
          by_cases he : isHWS e = true
          · rw [if_pos he] at hp1
            simp only [Bool.false_eq_true, if_false] at hp1
            simp at hp1
          · rw [if_neg he] at hp1 hp2
            simp only [List.head?_cons, Option.some.injEq] at hp1
            subst hp1
            simp only [List.tail_cons] at hp2
            cases r2 with
            | nil => simp [wsRun] at hp2
            | cons f r3 =>
              rw [wsRun] at hp2
              by_cases hf : isHWS f = true
              · rw [if_pos hf] at hp2
                simp only [Bool.false_eq_true, if_false] at hp2
                simp at hp2
              · rw [if_neg hf] at hp2
                simp only [List.head?_cons, Option.some.injEq] at hp2
                subst hp2
                rw [okNL_cons3] at h
                simp at h
      · exact okNL_cons_of_ne d hdn _ (ih false hrest)

lemma isHWS_space_or_tab (d : Char) (h : isHWS d = true) : d = ' ' ∨ d = '\t' := by
  simp only [isHWS, Bool.or_eq_true, beq_iff_eq] at h
  exact h

lemma wsRun_id_aux : ∀ l : List Char, okWS l = true → '\t' ∉ l →
    (wsRun false l = l ∧
      ((∀ d, l.head? = some d → isHWS d = false) → wsRun true l = l)) := by
  intro l
  induction l with
  | nil => exact fun _ _ => ⟨rfl, fun _ => rfl⟩
  | cons d rest ih =>
    intro h htab
    obtain ⟨ihf, iht⟩ := ih (okWS_tail _ _ h) (fun hm => htab (List.mem_cons_of_mem _ hm))
    have hheadrest : isHWS d = true → ∀ e, rest.head? = some e → isHWS e = false := by
      intro hd e he
      cases rest with
      | nil => simp at he
      | cons e0 r0 =>
        rw [okWS_cons2] at h
        simp only [Bool.and_eq_true, Bool.not_eq_eq_eq_not, Bool.not_true,
          Bool.and_eq_false_iff] at h
        simp only [List.head?_cons, Option.some.injEq] at he
        subst he
        rcases h.1 with h' | h'
        · exact absurd hd (by simp [h'])
        · exact h'
    constructor
    · rw [wsRun]
      by_cases hd : isHWS d = true
      · rw [if_pos hd]
        simp only [Bool.false_eq_true, if_false]
        have hds : d = ' ' := by
          rcases isHWS_space_or_tab d hd with h' | h'
          · exact h'
          · exfalso
            apply htab
            rw [← h']
            exact List.mem_cons_self d rest
        rw [hds]
        congr 1
        exact iht (hheadrest hd)
      · rw [if_neg hd, ihf]
    · intro hhead
      rw [wsRun]
      by_cases hd : isHWS d = true
      · exact absurd hd (by simp [hhead d rfl])
      · rw [if_neg hd, ihf]

lemma dropWS_head (l : List Char) (d : Char) (h : (l.dropWhile isJsWS).head? = some d) :
    isJsWS d = false := by
  have hx := List.head?_dropWhile_not isJsWS l
  rw [h] at hx
  exact hx

lemma dropWhile_eq_self_of_head (p : Char → Bool) (l : List Char)
    (h : ∀ d, l.head? = some d → p d = false) : l.dropWhile p = l := by
  cases l with
  | nil => rfl
  | cons a rest =>
    rw [List.dropWhile_cons_of_neg]
    simp [h a rfl]

lemma getLast?_dropWhile (p : Char → Bool) (w : List Char) (h : w.dropWhile p ≠ []) :
    (w.dropWhile p).getLast? = w.getLast? := by
  conv_rhs => rw [← List.takeWhile_append_dropWhile p w]
  rw [List.getLast?_append]
  cases hl : (w.dropWhile p).getLast? with
  | none =>
    exfalso
    apply h
    simpa using hl
  | some x => simp

lemma trimJS_head (l : List Char) (d : Char) (h : (trimJS l).head? = some d) :
    isJsWS d = false := by
  unfold trimJS at h
  rw [List.head?_reverse] at h
  have hne : (dropWS l).reverse.dropWhile isJsWS ≠ [] := by
    intro he
    rw [he] at h
    simp at h
  rw [getLast?_dropWhile _ _ hne, List.getLast?_reverse] at h
  exact dropWS_head l d h

lemma trimJS_last (l : List Char) (d : Char) (h : (trimJS l).getLast? = some d) :
    isJsWS d = false := by
  unfold trimJS at h
  rw [List.getLast?_reverse] at h
  have hx := List.head?_dropWhile_not isJsWS (dropWS l).reverse
  rw [h] at hx
  exact hx

lemma trimJS_eq_self (l : List Char) (hh : ∀ d, l.head? = some d → isJsWS d = false)
    (hl : ∀ d, l.getLast? = some d → isJsWS d = false) : trimJS l = l := by
  unfold trimJS dropWS
  rw [dropWhile_eq_self_of_head _ _ hh]
  rw [dropWhile_eq_self_of_head _ _ (fun d hd => hl d (by rwa [List.head?_reverse] at hd))]
  exact List.reverse_reverse l

lemma trimJS_idem (l : List Char) : trimJS (trimJS l) = trimJS l :=
  trimJS_eq_self (trimJS l) (trimJS_head l) (trimJS_last l)

/-! ## Claim C4: assembly -/

lemma chars_pipe_printable (l : List Char) (h : ∀ c ∈ l, asciiOK c) :
    ∀ c ∈ wsRun false (nlRun 0 (replCR (replCRLF l))), printableOrNL c = true := by
  intro c hc
  rcases mem_wsRun _ _ hc with hsp | ⟨hmem, hhws⟩
  · rw [hsp]; decide
  · have h2 := mem_nlRun _ _ hmem
    have hcr : c ≠ '\r' := fun h' => not_cr_replCR _ (h' ▸ h2)
    rcases mem_replCR _ h2 with h3 | h3
    · rcases mem_replCRLF _ h3 with h4 | h4
      · rcases h c h4 with h5 | h5 | h5
        · exact h5
        · exact absurd h5 hcr
        · rw [h5] at hhws
          simp [isHWS] at hhws
      · rw [h4]; decide
    · rw [h3]; decide

lemma len_pipeCore (l : List Char) : (pipeCore l).length ≤ l.length := by
  unfold pipeCore
  calc (trimJS (wsRun false (nlRun 0 (replCR (replCRLF l))))).length
      ≤ (wsRun false (nlRun 0 (replCR (replCRLF l)))).length := len_trimJS _
    _ ≤ (nlRun 0 (replCR (replCRLF l))).length := len_wsRun _ false
    _ ≤ (replCR (replCRLF l)).length := len_nlRun _ 0
    _ = (replCRLF l).length := len_replCR _
    _ ≤ l.length := len_replCRLF l

lemma clean_eq_pipeCore (l : List Char) (h1 : ∀ c ∈ l, asciiOK c) (h2 : l.length ≤ 10000)
    (hne : l ≠ []) : cleanExtractedText l = pipeCore l := by
  unfold cleanExtractedText
  rw [if_neg (by simpa using hne)]
  show ((pipeCore l).filter printableOrNL).take 10000 = pipeCore l
  have hprint : List.filter printableOrNL (pipeCore l) = pipeCore l :=
    List.filter_eq_self.mpr (fun c hc => chars_pipe_printable l h1 c (mem_trimJS _ hc))
  rw [hprint]
  exact List.take_of_length_le (le_trans (len_pipeCore l) h2)

lemma pipeCore_not_cr (l : List Char) : '\r' ∉ pipeCore l := by
  intro hmem
  rcases mem_wsRun _ _ (mem_trimJS _ hmem) with hsp | ⟨hm, _⟩
  · exact absurd hsp (by decide)
  · exact not_cr_replCR _ (mem_nlRun _ _ hm)

lemma pipeCore_not_tab (l : List Char) : '\t' ∉ pipeCore l := by
  intro hmem
  rcases mem_wsRun _ _ (mem_trimJS _ hmem) with hsp | ⟨_, hh⟩
  · exact absurd hsp (by decide)
  · exact absurd hh (by decide)

lemma pipeCore_okNL (l : List Char) : okNL (pipeCore l) = true := by
  have hx : okNL (wsRun false (nlRun 0 (replCR (replCRLF l)))) = true :=
    okNL_wsRun _ false (okNL_nlRun _ 0)
  obtain ⟨p, q, hd⟩ := trimJS_decomp (wsRun false (nlRun 0 (replCR (replCRLF l))))
  rw [List.append_assoc] at hd
  rw [hd] at hx
  exact okNL_append_left _ _ (okNL_append_right _ _ hx)

lemma pipeCore_okWS (l : List Char) : okWS (pipeCore l) = true := by
  have hx : okWS (wsRun false (nlRun 0 (replCR (replCRLF l)))) = true := okWS_wsRun _ false
  obtain ⟨p, q, hd⟩ := trimJS_decomp (wsRun false (nlRun 0 (replCR (replCRLF l))))
  rw [List.append_assoc] at hd
  rw [hd] at hx
  exact okWS_append_left _ _ (okWS_append_right _ _ hx)

lemma pipeCore_trim (l : List Char) : trimJS (pipeCore l) = pipeCore l := trimJS_idem _

/-- Claim C4 (amended): restricted to inputs of length at most 10000 all of
whose characters are printable ASCII, newline, carriage return, or tab, the
text cleaning transform is idempotent. (Outside this restriction it is not:
stripping a non-printable character can merge two whitespace runs, and the
truncation can expose a new trailing space; see the counterexample.) -/
theorem c4_clean_idempotent (l : List Char) (h1 : ∀ c ∈ l, asciiOK c)
    (h2 : l.length ≤ 10000) :
    cleanExtractedText (cleanExtractedText l) = cleanExtractedText l := by
  by_cases hne : l = []
  · rw [hne]
    rfl
  · rw [clean_eq_pipeCore l h1 h2 hne]
    by_cases hune : pipeCore l = []
    · rw [hune]
      rfl
    · unfold cleanExtractedText
      rw [if_neg (by simpa using hune)]
      have hprint : List.filter printableOrNL (pipeCore l) = pipeCore l :=
        List.filter_eq_self.mpr (fun c hc => chars_pipe_printable l h1 c (mem_trimJS _ hc))
      rw [replCRLF_id _ (pipeCore_not_cr l), replCR_id _ (pipeCore_not_cr l),
        nlRun_id _ 0 (by omega) (by simpa using pipeCore_okNL l),
        (wsRun_id_aux _ (pipeCore_okWS l) (pipeCore_not_tab l)).1,
        pipeCore_trim l, hprint]
      exact List.take_of_length_le (le_trans (len_pipeCore l) h2)

/-- Witness for C4 at a concrete printable input with a double newline. -/
theorem c4_clean_idempotent_witness :
    cleanExtractedText (cleanExtractedText ['a', 'b', '\n', '\n', 'c']) =
      cleanExtractedText ['a', 'b', '\n', '\n', 'c'] :=
  c4_clean_idempotent ['a', 'b', '\n', '\n', 'c'] (by decide) (by decide)
